import Mathlib

/-!
Shallow embedding of `t.py`, a prototype of a rail-composition language.

The Python source is duck-typed and imperative; here each component is a
value.  Geometry: joint positions are `numpy` float triples in the source;
they are modelled as exact rational triples (the spec describes them as
real-valued coordinates).  Mutation: `_connect` mutates the target's joints
in place (`j.position += dpos`); the embedding makes the post-call state of
both arguments explicit, so `connect` returns the outcome together with the
post-call states of its two arguments, in order.

Error mapping (the source raises exceptions, the spec names error values):
`RuntimeError("Ambiguous Connection")` ↦ `ConnErr.ambiguousConnection`,
`NotImplementedError` (rotation needed) ↦ `ConnErr.unsupportedOrientation`,
`IndexError` from list indexing in `SelectedJoint` ↦
`SelErr.invalidJointIndex`.
-/

namespace Plarail

/-- A 3-D position, `X, Y, Z`, modelled over the rationals. -/
abbrev Vec3 := ℚ × ℚ × ℚ

/-- `Joint`: a rail joint (`t.py` lines 88–95).  The constructor of the
source stores `rotation % 8`; `Joint.make` below models the constructor,
while this structure is the raw record. -/
structure Joint where
  position : Vec3
  rotation : ℕ
  is_male : Bool
deriving DecidableEq

instance : Inhabited Joint := ⟨⟨(0, 0, 0), 0, false⟩⟩

/-- `Joint.__init__`: takes an arbitrary integer rotation and stores
`rotation % 8` (Python `%` on `int` with a positive modulus is Euclidean,
as is Lean's `Int.emod`). -/
def Joint.make (position : Vec3) (rotation : ℤ) (is_male : Bool) : Joint :=
  ⟨position, (rotation % 8).toNat, is_male⟩

/-- The in-place `j.position += dpos` of the source, as a value producer. -/
def Joint.translate (j : Joint) (d : Vec3) : Joint :=
  ⟨j.position + d, j.rotation, j.is_male⟩

/-- A component: every component of the source exposes a list `joints`;
the composite ones (`ConnectedComponent`, `SelectedJoint`) also hold a
list `children`.  Leaf components have no children. -/
inductive Part where
  | mk (joints : List Joint) (children : List Part)

/-- The `joints` attribute of a component. -/
def Part.joints : Part → List Joint
  | .mk js _ => js

/-- The `children` attribute of a component (empty for leaves). -/
def Part.children : Part → List Part
  | .mk _ cs => cs

@[simp] theorem Part.joints_mk (js : List Joint) (cs : List Part) :
    (Part.mk js cs).joints = js := rfl

@[simp] theorem Part.children_mk (js : List Joint) (cs : List Part) :
    (Part.mk js cs).children = cs := rfl

/-- `Straight()` (`t.py` lines 118–123): a female joint with rotation 4 at
the origin and a male joint with rotation 0 one unit along the X axis. -/
def Straight : Part :=
  .mk [Joint.make (0, 0, 0) 4 false, Joint.make (1, 0, 0) 0 true] []

/-- `EndPoint(position, rotation, is_male)` (`t.py` lines 111–115). -/
def EndPoint (position : Vec3) (rotation : ℤ) (is_male : Bool) : Part :=
  .mk [Joint.make position rotation is_male] []

/-- Failures of `connect` (see the error mapping in the file header). -/
inductive ConnErr where
  | ambiguousConnection
  | unsupportedOrientation
deriving DecidableEq

/-- The gender-compatible candidates: `[j for j in c2.joints if j.is_male != j1.is_male]`
(`t.py` line 136). -/
def candidates (j1 : Joint) (c2 : Part) : List Joint :=
  c2.joints.filter (fun j => j.is_male != j1.is_male)

/-- `_connect(c1, c2)` (`t.py` lines 134–153).  `c1` is the anchor (known by
the callers to have exactly one joint), `c2` the target.  Returns the
outcome together with the post-call states of `c1` and `c2`: the source
mutates every joint of `c2` in place by `dpos` before building the
`ConnectedComponent`, and the component's `children` hold `c1` and the
mutated `c2`.  The leftover joints drop `j2` by object identity
(`j != j2`); since the candidate list is a sublist of `c2.joints` of
length one, that is exactly the removal of the matched index. -/
def _connect (c1 c2 : Part) : Except ConnErr Part × Part × Part :=
  let j1 := c1.joints.headI
  let j2s := candidates j1 c2
  if j2s.length = 1 then
    let j2 := j2s.headI
    if j1.rotation + j2.rotation ≠ 4 then
      -- `raise NotImplementedError`: before any mutation
      (.error .unsupportedOrientation, c1, c2)
    else
      let dpos := j1.position - j2.position
      let newJoints := c2.joints.map (fun j => j.translate dpos)
      let c2After : Part := .mk newJoints c2.children
      let idx := c2.joints.findIdx (fun j => j.is_male != j1.is_male)
      let result : Part := .mk (newJoints.eraseIdx idx) [c1, c2After]
      (.ok result, c1, c2After)
  else
    (.error .ambiguousConnection, c1, c2)

/-- `connect(c1, c2)` (`t.py` lines 126–131): anchor selection.  Returns the
outcome and the post-call states of the two arguments in argument order. -/
def connect (c1 c2 : Part) : Except ConnErr Part × Part × Part :=
  if c1.joints.length = 1 then
    _connect c1 c2
  else if c2.joints.length = 1 then
    let r := _connect c2 c1
    (r.1, r.2.2, r.2.1)
  else
    (.error .ambiguousConnection, c1, c2)

/-- The anchor/target choice made by `connect`:  `some (anchor, target)`
when anchor selection passes, `none` when it fails. -/
def anchorTarget (c1 c2 : Part) : Option (Part × Part) :=
  if c1.joints.length = 1 then some (c1, c2)
  else if c2.joints.length = 1 then some (c2, c1)
  else none

/-- Failure of `SelectedJoint` construction. -/
inductive SelErr where
  | invalidJointIndex
deriving DecidableEq

/-- Python list indexing `xs[i]` for an `int` index: supports negative
indices counting from the end; out of range is `none` (`IndexError`). -/
def pyGet {α : Type} (xs : List α) (i : ℤ) : Option α :=
  if 0 ≤ i then xs.get? i.toNat
  else if 0 ≤ (xs.length : ℤ) + i then xs.get? ((xs.length : ℤ) + i).toNat
  else none

/-- `SelectedJoint(component, joint_index)` (`t.py` lines 156–162): exposes
the single joint `component.joints[joint_index]` and records `component`
as its sole child.  (The source also copies the joint's position onto the
wrapper and sets its rotation to 0; no claim observes those fields.) -/
def SelectedJoint (component : Part) (joint_index : ℤ) : Except SelErr Part :=
  match pyGet component.joints joint_index with
  | some j => .ok (.mk [j] [component])
  | none => .error .invalidJointIndex

end Plarail

namespace Plarail

/-! ### Basic lemmas about `connect` and `_connect` -/

theorem connect_anchor_first (c1 c2 : Part) (h : c1.joints.length = 1) :
    connect c1 c2 = _connect c1 c2 := by
  simp [connect, h]

theorem connect_anchor_second (c1 c2 : Part) (h1 : c1.joints.length ≠ 1)
    (h2 : c2.joints.length = 1) :
    connect c1 c2 = ((_connect c2 c1).1, (_connect c2 c1).2.2, (_connect c2 c1).2.1) := by
  simp [connect, h1, h2]

theorem connect_no_anchor (c1 c2 : Part) (h1 : c1.joints.length ≠ 1)
    (h2 : c2.joints.length ≠ 1) :
    connect c1 c2 = (.error .ambiguousConnection, c1, c2) := by
  simp [connect, h1, h2]

theorem _connect_of_candidates_ne_one (c1 c2 : Part)
    (h : (candidates c1.joints.headI c2).length ≠ 1) :
    _connect c1 c2 = (.error .ambiguousConnection, c1, c2) := by
  simp [_connect, h]

theorem _connect_of_rot_ne (c1 c2 : Part) (j2 : Joint)
    (h : candidates c1.joints.headI c2 = [j2])
    (hrot : c1.joints.headI.rotation + j2.rotation ≠ 4) :
    _connect c1 c2 = (.error .unsupportedOrientation, c1, c2) := by
  simp [_connect, h, hrot]

theorem _connect_of_rot_eq (c1 c2 : Part) (j2 : Joint)
    (h : candidates c1.joints.headI c2 = [j2])
    (hrot : c1.joints.headI.rotation + j2.rotation = 4) :
    _connect c1 c2 =
      (.ok (.mk ((c2.joints.map
              (fun j => j.translate (c1.joints.headI.position - j2.position))).eraseIdx
            (c2.joints.findIdx (fun j => j.is_male != c1.joints.headI.is_male)))
          [c1, .mk (c2.joints.map
              (fun j => j.translate (c1.joints.headI.position - j2.position))) c2.children]),
        c1,
        .mk (c2.joints.map
            (fun j => j.translate (c1.joints.headI.position - j2.position))) c2.children) := by
  simp [_connect, h, hrot]

/-- Inversion for a successful `_connect`. -/
theorem _connect_ok (c1 c2 r aA bA : Part)
    (h : _connect c1 c2 = (.ok r, aA, bA)) :
    ∃ j2, candidates c1.joints.headI c2 = [j2] ∧
      c1.joints.headI.rotation + j2.rotation = 4 ∧
      aA = c1 ∧
      bA = Part.mk (c2.joints.map
        (fun j => j.translate (c1.joints.headI.position - j2.position))) c2.children ∧
      r = Part.mk ((c2.joints.map
          (fun j => j.translate (c1.joints.headI.position - j2.position))).eraseIdx
        (c2.joints.findIdx (fun j => j.is_male != c1.joints.headI.is_male))) [c1, bA] := by
  by_cases hl : (candidates c1.joints.headI c2).length = 1
  · obtain ⟨j2, hj2⟩ := List.length_eq_one.mp hl
    by_cases hrot : c1.joints.headI.rotation + j2.rotation = 4
    · rw [_connect_of_rot_eq c1 c2 j2 hj2 hrot] at h
      simp only [Prod.mk.injEq, Except.ok.injEq] at h
      exact ⟨j2, hj2, hrot, h.2.1.symm, h.2.2.symm, by rw [h.1.symm, h.2.2]⟩
    · rw [_connect_of_rot_ne c1 c2 j2 hj2 hrot] at h
      simp at h
  · rw [_connect_of_candidates_ne_one c1 c2 hl] at h
    simp at h

/-- Inversion for a failing `_connect`: the raise happens before any
mutation, so both arguments are returned unchanged. -/
theorem _connect_error (c1 c2 : Part) (e : ConnErr) (aA bA : Part)
    (h : _connect c1 c2 = (.error e, aA, bA)) : aA = c1 ∧ bA = c2 := by
  by_cases hl : (candidates c1.joints.headI c2).length = 1
  · obtain ⟨j2, hj2⟩ := List.length_eq_one.mp hl
    by_cases hrot : c1.joints.headI.rotation + j2.rotation = 4
    · rw [_connect_of_rot_eq c1 c2 j2 hj2 hrot] at h
      simp at h
    · rw [_connect_of_rot_ne c1 c2 j2 hj2 hrot] at h
      simp only [Prod.mk.injEq, Except.error.injEq] at h
      exact ⟨h.2.1.symm, h.2.2.symm⟩
  · rw [_connect_of_candidates_ne_one c1 c2 hl] at h
    simp only [Prod.mk.injEq, Except.error.injEq] at h
    exact ⟨h.2.1.symm, h.2.2.symm⟩

/-- `_connect` reports an ambiguous connection exactly when the number of
gender-compatible candidate joints is not one. -/
theorem _connect_ambiguous_iff (c1 c2 : Part) :
    (_connect c1 c2).1 = .error .ambiguousConnection ↔
      (candidates c1.joints.headI c2).length ≠ 1 := by
  by_cases hl : (candidates c1.joints.headI c2).length = 1
  · obtain ⟨j2, hj2⟩ := List.length_eq_one.mp hl
    by_cases hrot : c1.joints.headI.rotation + j2.rotation = 4
    · rw [_connect_of_rot_eq c1 c2 j2 hj2 hrot]
      simp [hl]
    · rw [_connect_of_rot_ne c1 c2 j2 hj2 hrot]
      simp [hl]
  · rw [_connect_of_candidates_ne_one c1 c2 hl]
    simp [hl]

/-- Inversion for `anchorTarget`. -/
theorem anchorTarget_some (a b anc tgt : Part)
    (h : anchorTarget a b = some (anc, tgt)) :
    (a.joints.length = 1 ∧ anc = a ∧ tgt = b) ∨
    (a.joints.length ≠ 1 ∧ b.joints.length = 1 ∧ anc = b ∧ tgt = a) := by
  by_cases h1 : a.joints.length = 1
  · left
    simp only [anchorTarget, h1, if_pos, Option.some.injEq, Prod.mk.injEq] at h
    exact ⟨h1, h.1.symm, h.2.symm⟩
  · right
    by_cases h2 : b.joints.length = 1
    · simp only [anchorTarget, h1, h2, if_neg, if_pos, if_false,
        Option.some.injEq, Prod.mk.injEq] at h
      exact ⟨h1, h2, h.1.symm, h.2.symm⟩
    · simp [anchorTarget, h1, h2] at h

/-- Inversion for a successful `connect`: the success came from `_connect`
on the anchor/target pair, with the post-call states in argument order. -/
theorem connect_ok (a b r aA bA : Part) (h : connect a b = (.ok r, aA, bA)) :
    (a.joints.length = 1 ∧ _connect a b = (.ok r, aA, bA)) ∨
    (a.joints.length ≠ 1 ∧ b.joints.length = 1 ∧ _connect b a = (.ok r, bA, aA)) := by
  by_cases h1 : a.joints.length = 1
  · left
    exact ⟨h1, by rwa [connect_anchor_first a b h1] at h⟩
  · by_cases h2 : b.joints.length = 1
    · right
      refine ⟨h1, h2, ?_⟩
      rw [connect_anchor_second a b h1 h2] at h
      simp only [Prod.ext_iff] at h ⊢
      exact ⟨h.1, h.2.2, h.2.1⟩
    · rw [connect_no_anchor a b h1 h2] at h
      simp at h

end Plarail

namespace Plarail

/-! ### All joints reachable in a component tree, and the rotation bound -/

mutual

/-- Every joint reachable from a component: its own `joints` list and,
recursively, the joints of its children. -/
def Part.allJoints : Part → List Joint
  | .mk js cs => js ++ Part.allJointsList cs

/-- `Part.allJoints` over a list of components. -/
def Part.allJointsList : List Part → List Joint
  | [] => []
  | p :: ps => p.allJoints ++ Part.allJointsList ps

end

@[simp] theorem Part.allJoints_mk (js : List Joint) (cs : List Part) :
    (Part.mk js cs).allJoints = js ++ Part.allJointsList cs := by
  rw [Part.allJoints]

@[simp] theorem Part.allJointsList_nil : Part.allJointsList [] = [] := by
  rw [Part.allJointsList]

@[simp] theorem Part.allJointsList_cons (p : Part) (ps : List Part) :
    Part.allJointsList (p :: ps) = p.allJoints ++ Part.allJointsList ps := by
  rw [Part.allJointsList]

/-- Every joint anywhere in the component tree has rotation in `[0, 8)`. -/
def RotWF (p : Part) : Prop := ∀ j ∈ p.allJoints, j.rotation < 8

theorem Joint.make_rotation_lt (position : Vec3) (rotation : ℤ) (is_male : Bool) :
    (Joint.make position rotation is_male).rotation < 8 := by
  have h8 : (0 : ℤ) < 8 := by norm_num
  have := Int.emod_lt_of_pos rotation h8
  have := Int.emod_nonneg rotation (by norm_num : (8 : ℤ) ≠ 0)
  simp only [Joint.make]
  omega

@[simp] theorem Joint.translate_rotation (j : Joint) (d : Vec3) :
    (j.translate d).rotation = j.rotation := rfl

@[simp] theorem Joint.translate_is_male (j : Joint) (d : Vec3) :
    (j.translate d).is_male = j.is_male := rfl

@[simp] theorem Joint.translate_position (j : Joint) (d : Vec3) :
    (j.translate d).position = j.position + d := rfl

theorem RotWF_joints {p : Part} (h : RotWF p) : ∀ j ∈ p.joints, j.rotation < 8 := by
  intro j hj
  cases p with
  | mk js cs =>
    exact h j (by simp only [Part.allJoints_mk, List.mem_append]; exact Or.inl hj)

theorem mem_allJointsList {j : Joint} {c : Part} {cs : List Part}
    (hc : c ∈ cs) (hj : j ∈ c.allJoints) : j ∈ Part.allJointsList cs := by
  induction cs with
  | nil => simp at hc
  | cons q qs ih =>
    simp only [Part.allJointsList_cons, List.mem_append]
    rcases List.mem_cons.mp hc with rfl | hc'
    · exact Or.inl hj
    · exact Or.inr (ih hc')

theorem allJointsList_mem {j : Joint} {cs : List Part}
    (h : j ∈ Part.allJointsList cs) : ∃ c ∈ cs, j ∈ c.allJoints := by
  induction cs with
  | nil => simp at h
  | cons q qs ih =>
    simp only [Part.allJointsList_cons, List.mem_append] at h
    rcases h with h | h
    · exact ⟨q, by simp, h⟩
    · obtain ⟨c, hc, hj⟩ := ih h
      exact ⟨c, List.mem_cons_of_mem q hc, hj⟩

theorem RotWF_children {p : Part} (h : RotWF p) : ∀ c ∈ p.children, RotWF c := by
  cases p with
  | mk js cs =>
    intro c hc j hj
    refine h j ?_
    simp only [Part.allJoints_mk, List.mem_append, Part.children_mk] at *
    exact Or.inr (mem_allJointsList hc hj)

theorem RotWF_mk {js : List Joint} {cs : List Part}
    (hj : ∀ j ∈ js, j.rotation < 8) (hc : ∀ c ∈ cs, RotWF c) :
    RotWF (.mk js cs) := by
  intro j hj'
  simp only [Part.allJoints_mk, List.mem_append] at hj'
  rcases hj' with h | h
  · exact hj j h
  · obtain ⟨c, hcm, hjm⟩ := allJointsList_mem h
    exact hc c hcm j hjm

theorem RotWF_Straight : RotWF Straight := by
  refine RotWF_mk ?_ ?_
  · intro j hj
    simp only [List.mem_cons, List.not_mem_nil, or_false] at hj
    rcases hj with rfl | rfl <;> exact Joint.make_rotation_lt ..
  · simp

theorem RotWF_EndPoint (position : Vec3) (rotation : ℤ) (is_male : Bool) :
    RotWF (EndPoint position rotation is_male) := by
  refine RotWF_mk ?_ ?_
  · intro j hj
    simp only [List.mem_cons, List.not_mem_nil, or_false] at hj
    subst hj
    exact Joint.make_rotation_lt ..
  · simp

theorem RotWF__connect (c1 c2 : Part) (hc1 : RotWF c1) (hc2 : RotWF c2) :
    RotWF (_connect c1 c2).2.1 ∧ RotWF (_connect c1 c2).2.2 ∧
      ∀ r, (_connect c1 c2).1 = .ok r → RotWF r := by
  by_cases hl : (candidates c1.joints.headI c2).length = 1
  · obtain ⟨j2, hj2⟩ := List.length_eq_one.mp hl
    by_cases hrot : c1.joints.headI.rotation + j2.rotation = 4
    · rw [_connect_of_rot_eq c1 c2 j2 hj2 hrot]
      have hbA : RotWF (Part.mk (c2.joints.map
          (fun j => j.translate (c1.joints.headI.position - j2.position))) c2.children) := by
        refine RotWF_mk ?_ (RotWF_children hc2)
        intro j hj
        simp only [List.mem_map] at hj
        obtain ⟨j0, hj0, rfl⟩ := hj
        simpa using RotWF_joints hc2 j0 hj0
      refine ⟨hc1, hbA, ?_⟩
      intro r hr
      simp only [Except.ok.injEq] at hr
      subst hr
      refine RotWF_mk ?_ ?_
      · intro j hj
        have hj' := List.eraseIdx_subset _ _ hj
        simp only [List.mem_map] at hj'
        obtain ⟨j0, hj0, rfl⟩ := hj'
        simpa using RotWF_joints hc2 j0 hj0
      · intro c hc
        simp only [List.mem_cons, List.not_mem_nil, or_false] at hc
        rcases hc with rfl | rfl
        · exact hc1
        · exact hbA
    · rw [_connect_of_rot_ne c1 c2 j2 hj2 hrot]
      exact ⟨hc1, hc2, by intro r hr; simp at hr⟩
  · rw [_connect_of_candidates_ne_one c1 c2 hl]
    exact ⟨hc1, hc2, by intro r hr; simp at hr⟩

theorem RotWF_connect (a b : Part) (ha : RotWF a) (hb : RotWF b) :
    RotWF (connect a b).2.1 ∧ RotWF (connect a b).2.2 ∧
      ∀ r, (connect a b).1 = .ok r → RotWF r := by
  by_cases h1 : a.joints.length = 1
  · rw [connect_anchor_first a b h1]
    exact RotWF__connect a b ha hb
  · by_cases h2 : b.joints.length = 1
    · rw [connect_anchor_second a b h1 h2]
      obtain ⟨x, y, z⟩ := RotWF__connect b a hb ha
      exact ⟨y, x, z⟩
    · rw [connect_no_anchor a b h1 h2]
      exact ⟨ha, hb, by intro r hr; simp at hr⟩

theorem RotWF_SelectedJoint (p : Part) (i : ℤ) (r : Part)
    (h : SelectedJoint p i = .ok r) (hp : RotWF p) : RotWF r := by
  cases hg : pyGet p.joints i with
  | none => simp [SelectedJoint, hg] at h
  | some j =>
    simp only [SelectedJoint, hg, Except.ok.injEq] at h
    subst h
    refine RotWF_mk ?_ ?_
    · intro j' hj'
      simp only [List.mem_cons, List.not_mem_nil, or_false] at hj'
      have hmem : j ∈ p.joints := by
        unfold pyGet at hg
        split at hg
        · exact List.get?_mem hg
        · split at hg
          · exact List.get?_mem hg
          · simp at hg
      rw [hj']
      exact RotWF_joints hp j hmem
    · intro c hc
      simp only [List.mem_cons, List.not_mem_nil, or_false] at hc
      subst hc
      exact hp

end Plarail

namespace Plarail

/-! ### Claim theorems -/

/-- C2: Anchor selection in `connect a b`: if `a` exposes exactly one joint,
`a` is the anchor and `b` the target; otherwise, if `b` exposes exactly one
joint, `b` is the anchor and `a` the target; if neither exposes exactly one
joint, `connect` fails with `AmbiguousConnection` — in particular
`connect Straight Straight` fails with `AmbiguousConnection`. -/
theorem claim_C2_anchor_selection (a b : Part) :
    (a.joints.length = 1 →
      anchorTarget a b = some (a, b) ∧ connect a b = _connect a b) ∧
    (a.joints.length ≠ 1 → b.joints.length = 1 →
      anchorTarget a b = some (b, a) ∧
      connect a b = ((_connect b a).1, (_connect b a).2.2, (_connect b a).2.1)) ∧
    (a.joints.length ≠ 1 → b.joints.length ≠ 1 →
      anchorTarget a b = none ∧
      connect a b = (.error .ambiguousConnection, a, b)) ∧
    (connect Straight Straight).1 = .error .ambiguousConnection := by
  refine ⟨?_, ?_, ?_, rfl⟩
  · intro h1
    exact ⟨by simp [anchorTarget, h1], connect_anchor_first a b h1⟩
  · intro h1 h2
    exact ⟨by simp [anchorTarget, h1, h2], connect_anchor_second a b h1 h2⟩
  · intro h1 h2
    exact ⟨by simp [anchorTarget, h1, h2], connect_no_anchor a b h1 h2⟩

theorem claim_C2_witness :
    anchorTarget (EndPoint (0, 0, 0) 0 true) Straight
        = some (EndPoint (0, 0, 0) 0 true, Straight) ∧
      connect (EndPoint (0, 0, 0) 0 true) Straight
        = _connect (EndPoint (0, 0, 0) 0 true) Straight :=
  (claim_C2_anchor_selection (EndPoint (0, 0, 0) 0 true) Straight).1 rfl

/-- C3: For every `connect` call that passes anchor selection, the outcome
is `AmbiguousConnection` precisely when the number of the target's exposed
joints whose gender differs from the anchor joint's gender is not one
(zero candidates and multiple candidates fail identically). -/
theorem claim_C3_gender_matching (a b anc tgt : Part)
    (h : anchorTarget a b = some (anc, tgt)) :
    (connect a b).1 = .error .ambiguousConnection ↔
      (candidates anc.joints.headI tgt).length ≠ 1 := by
  rcases anchorTarget_some a b anc tgt h with ⟨h1, rfl, rfl⟩ | ⟨h1, h2, rfl, rfl⟩
  · rw [connect_anchor_first _ _ h1]
    exact _connect_ambiguous_iff _ _
  · rw [connect_anchor_second _ _ h1 h2]
    exact _connect_ambiguous_iff _ _

theorem claim_C3_witness :
    (connect (EndPoint (0, 0, 0) 0 true) (EndPoint (1, 0, 0) 0 true)).1
      = .error .ambiguousConnection :=
  (claim_C3_gender_matching (EndPoint (0, 0, 0) 0 true) (EndPoint (1, 0, 0) 0 true)
    (EndPoint (0, 0, 0) 0 true) (EndPoint (1, 0, 0) 0 true) rfl).mpr (by decide)

/-- C4: When the gender-compatible matched pair of a `connect` call has
orientation sum different from 4, `connect` fails with
`UnsupportedOrientation` and both inputs come out of the call with all
their joints unchanged (no half-translated target). -/
theorem claim_C4_orientation (a b anc tgt : Part) (j2 : Joint)
    (h : anchorTarget a b = some (anc, tgt))
    (hc : candidates anc.joints.headI tgt = [j2])
    (hrot : anc.joints.headI.rotation + j2.rotation ≠ 4) :
    connect a b = (.error .unsupportedOrientation, a, b) := by
  rcases anchorTarget_some a b anc tgt h with ⟨h1, rfl, rfl⟩ | ⟨h1, h2, rfl, rfl⟩
  · rw [connect_anchor_first _ _ h1]
    exact _connect_of_rot_ne _ _ j2 hc hrot
  · rw [connect_anchor_second _ _ h1 h2, _connect_of_rot_ne _ _ j2 hc hrot]

theorem claim_C4_witness :
    connect (EndPoint (0, 0, 0) 0 true) (EndPoint (5, 0, 0) 1 false)
      = (.error .unsupportedOrientation,
          EndPoint (0, 0, 0) 0 true, EndPoint (5, 0, 0) 1 false) :=
  claim_C4_orientation (EndPoint (0, 0, 0) 0 true) (EndPoint (5, 0, 0) 1 false)
    (EndPoint (0, 0, 0) 0 true) (EndPoint (5, 0, 0) 1 false)
    (Joint.make (5, 0, 0) 1 false) rfl rfl (by decide)

end Plarail

namespace Plarail

/-- Inversion for a failing `connect`: both arguments come back unchanged. -/
theorem connect_error (a b : Part) (e : ConnErr) (aA bA : Part)
    (h : connect a b = (.error e, aA, bA)) : aA = a ∧ bA = b := by
  by_cases h1 : a.joints.length = 1
  · rw [connect_anchor_first a b h1] at h
    exact _connect_error a b e aA bA h
  · by_cases h2 : b.joints.length = 1
    · rw [connect_anchor_second a b h1 h2] at h
      simp only [Prod.ext_iff] at h
      have h' : _connect b a = (.error e, bA, aA) := by
        simp only [Prod.ext_iff]
        exact ⟨h.1, h.2.2, h.2.1⟩
      obtain ⟨hb, ha⟩ := _connect_error b a e bA aA h'
      exact ⟨ha, hb⟩
    · rw [connect_no_anchor a b h1 h2] at h
      simp only [Prod.mk.injEq, Except.error.injEq] at h
      exact ⟨h.2.1.symm, h.2.2.symm⟩

/-- C5: For every successful `connect`, every joint of the target part is
translated by the single offset `anchor.position - matched.position`
(orientations and genders unchanged), and after this translation the
matched joint's position equals the anchor joint's position exactly. -/
theorem claim_C5_rigid_transform (a b r aA bA : Part)
    (h : connect a b = (.ok r, aA, bA)) :
    ∃ anc tgt tgtA j2,
      anchorTarget a b = some (anc, tgt) ∧
      ((anc = a ∧ tgtA = bA) ∨ (anc = b ∧ tgtA = aA)) ∧
      candidates anc.joints.headI tgt = [j2] ∧
      tgtA.joints = tgt.joints.map
        (fun j => j.translate (anc.joints.headI.position - j2.position)) ∧
      (∀ j ∈ tgt.joints,
        (j.translate (anc.joints.headI.position - j2.position)).rotation = j.rotation ∧
        (j.translate (anc.joints.headI.position - j2.position)).is_male = j.is_male) ∧
      (j2.translate (anc.joints.headI.position - j2.position)).position =
        anc.joints.headI.position := by
  rcases connect_ok a b r aA bA h with ⟨h1, hcc⟩ | ⟨h1, h2, hcc⟩
  · obtain ⟨j2, hj2, hrot, haA, hbA, hr⟩ := _connect_ok a b r aA bA hcc
    refine ⟨a, b, bA, j2, by simp [anchorTarget, h1], Or.inl ⟨rfl, rfl⟩, hj2, ?_, ?_, ?_⟩
    · rw [hbA]
      simp
    · intro j hj
      simp
    · simp only [Joint.translate_position]
      abel
  · obtain ⟨j2, hj2, hrot, hbA, haA, hr⟩ := _connect_ok b a r bA aA hcc
    refine ⟨b, a, aA, j2, by simp [anchorTarget, h1, h2], Or.inr ⟨rfl, rfl⟩, hj2, ?_, ?_, ?_⟩
    · rw [haA]
      simp
    · intro j hj
      simp
    · simp only [Joint.translate_position]
      abel

theorem claim_C5_witness :
    connect (EndPoint (10, 0, 0) 0 true) Straight =
      (.ok (.mk [⟨(11, 0, 0), 0, true⟩]
          [EndPoint (10, 0, 0) 0 true,
            .mk [⟨(10, 0, 0), 4, false⟩, ⟨(11, 0, 0), 0, true⟩] []]),
        EndPoint (10, 0, 0) 0 true,
        .mk [⟨(10, 0, 0), 4, false⟩, ⟨(11, 0, 0), 0, true⟩] []) ∧
    ∃ anc tgt tgtA j2,
      anchorTarget (EndPoint (10, 0, 0) 0 true) Straight = some (anc, tgt) ∧
      ((anc = EndPoint (10, 0, 0) 0 true ∧
          tgtA = .mk [⟨(10, 0, 0), 4, false⟩, ⟨(11, 0, 0), 0, true⟩] []) ∨
        (anc = Straight ∧ tgtA = EndPoint (10, 0, 0) 0 true)) ∧
      candidates anc.joints.headI tgt = [j2] ∧
      tgtA.joints = tgt.joints.map
        (fun j => j.translate (anc.joints.headI.position - j2.position)) ∧
      (∀ j ∈ tgt.joints,
        (j.translate (anc.joints.headI.position - j2.position)).rotation = j.rotation ∧
        (j.translate (anc.joints.headI.position - j2.position)).is_male = j.is_male) ∧
      (j2.translate (anc.joints.headI.position - j2.position)).position =
        anc.joints.headI.position := by
  have h : connect (EndPoint (10, 0, 0) 0 true) Straight =
      (.ok (.mk [⟨(11, 0, 0), 0, true⟩]
          [EndPoint (10, 0, 0) 0 true,
            .mk [⟨(10, 0, 0), 4, false⟩, ⟨(11, 0, 0), 0, true⟩] []]),
        EndPoint (10, 0, 0) 0 true,
        .mk [⟨(10, 0, 0), 4, false⟩, ⟨(11, 0, 0), 0, true⟩] []) := by
    simp [connect, _connect, candidates, Straight, EndPoint, Joint.make, Joint.translate,
      Prod.ext_iff, List.findIdx_cons, List.eraseIdx_cons_zero, List.eraseIdx_cons_succ]
    norm_num
  exact ⟨h, claim_C5_rigid_transform _ _ _ _ _ h⟩

end Plarail

namespace Plarail

/-- C6: For every successful `connect`, the resulting component's children
are exactly `[anchor, target]` in call order (the target in its
post-translation state), its exposed joints are exactly the target's
post-translation joints with the matched joint removed at its index, and
the anchor part contributes zero exposed joints (every exposed joint of
the result is one of the target's). -/
theorem claim_C6_assembly (a b r aA bA : Part)
    (h : connect a b = (.ok r, aA, bA)) :
    ∃ anc tgt tgtA,
      anchorTarget a b = some (anc, tgt) ∧
      ((anc = a ∧ tgtA = bA) ∨ (anc = b ∧ tgtA = aA)) ∧
      r.children = [anc, tgtA] ∧
      r.joints = tgtA.joints.eraseIdx
        (tgt.joints.findIdx (fun j => j.is_male != anc.joints.headI.is_male)) ∧
      (∀ j ∈ r.joints, j ∈ tgtA.joints) := by
  rcases connect_ok a b r aA bA h with ⟨h1, hcc⟩ | ⟨h1, h2, hcc⟩
  · obtain ⟨j2, hj2, hrot, haA, hbA, hr⟩ := _connect_ok a b r aA bA hcc
    refine ⟨a, b, bA, by simp [anchorTarget, h1], Or.inl ⟨rfl, rfl⟩, ?_, ?_, ?_⟩
    · rw [hr]
      simp
    · rw [hr, hbA]
      simp
    · intro j hj
      rw [hr] at hj
      simp only [Part.joints_mk] at hj
      rw [hbA]
      simpa using List.eraseIdx_subset _ _ hj
  · obtain ⟨j2, hj2, hrot, hbA, haA, hr⟩ := _connect_ok b a r bA aA hcc
    refine ⟨b, a, aA, by simp [anchorTarget, h1, h2], Or.inr ⟨rfl, rfl⟩, ?_, ?_, ?_⟩
    · rw [hr]
      simp
    · rw [hr, haA]
      simp
    · intro j hj
      rw [hr] at hj
      simp only [Part.joints_mk] at hj
      rw [haA]
      simpa using List.eraseIdx_subset _ _ hj

theorem claim_C6_witness :
    connect (EndPoint (10, 0, 0) 0 true) Straight =
      (.ok (.mk [⟨(11, 0, 0), 0, true⟩]
          [EndPoint (10, 0, 0) 0 true,
            .mk [⟨(10, 0, 0), 4, false⟩, ⟨(11, 0, 0), 0, true⟩] []]),
        EndPoint (10, 0, 0) 0 true,
        .mk [⟨(10, 0, 0), 4, false⟩, ⟨(11, 0, 0), 0, true⟩] []) ∧
    ∃ anc tgt tgtA,
      anchorTarget (EndPoint (10, 0, 0) 0 true) Straight = some (anc, tgt) ∧
      ((anc = EndPoint (10, 0, 0) 0 true ∧
          tgtA = .mk [⟨(10, 0, 0), 4, false⟩, ⟨(11, 0, 0), 0, true⟩] []) ∨
        (anc = Straight ∧ tgtA = EndPoint (10, 0, 0) 0 true)) ∧
      (Part.mk [⟨(11, 0, 0), 0, true⟩]
          [EndPoint (10, 0, 0) 0 true,
            .mk [⟨(10, 0, 0), 4, false⟩, ⟨(11, 0, 0), 0, true⟩] []]).children
        = [anc, tgtA] ∧
      (Part.mk [⟨(11, 0, 0), 0, true⟩]
          [EndPoint (10, 0, 0) 0 true,
            .mk [⟨(10, 0, 0), 4, false⟩, ⟨(11, 0, 0), 0, true⟩] []]).joints
        = tgtA.joints.eraseIdx
            (tgt.joints.findIdx (fun j => j.is_male != anc.joints.headI.is_male)) ∧
      (∀ j ∈ (Part.mk [⟨(11, 0, 0), 0, true⟩]
          [EndPoint (10, 0, 0) 0 true,
            .mk [⟨(10, 0, 0), 4, false⟩, ⟨(11, 0, 0), 0, true⟩] []]).joints,
        j ∈ tgtA.joints) := by
  have h : connect (EndPoint (10, 0, 0) 0 true) Straight =
      (.ok (.mk [⟨(11, 0, 0), 0, true⟩]
          [EndPoint (10, 0, 0) 0 true,
            .mk [⟨(10, 0, 0), 4, false⟩, ⟨(11, 0, 0), 0, true⟩] []]),
        EndPoint (10, 0, 0) 0 true,
        .mk [⟨(10, 0, 0), 4, false⟩, ⟨(11, 0, 0), 0, true⟩] []) := by
    simp [connect, _connect, candidates, Straight, EndPoint, Joint.make, Joint.translate,
      Prod.ext_iff, List.findIdx_cons, List.eraseIdx_cons_zero, List.eraseIdx_cons_succ]
    norm_num
  exact ⟨h, claim_C6_assembly _ _ _ _ _ h⟩

end Plarail

namespace Plarail

/-- C1 counterexample: the claim says the input parts' joints observable
after a `connect` call are identical to those before it.  On the successful
call `connect (EndPoint (10,0,0) 0 male) Straight`, the second argument's
joints are translated in place (`j.position += dpos` in the source), so its
observable joint list after the call differs from the one before. -/
theorem claim_C1_counterexample :
    (connect (EndPoint (10, 0, 0) 0 true) Straight).2.2.joints
      ≠ Straight.joints := by
  simp [connect, _connect, candidates, Straight, EndPoint, Joint.make, Joint.translate,
    Part.joints, Prod.ext_iff]

/-- C1 amended: on every failing `connect` call both inputs are left fully
unchanged, and on every successful call the anchor-side input is left
unchanged while the target-side input's joints keep their orientations and
genders but have their positions translated in place by a single offset
(so the target input is mutated, contrary to the original claim). -/
theorem claim_C1_mutation_profile (a b : Part) :
    (∀ e aA bA, connect a b = (.error e, aA, bA) → aA = a ∧ bA = b) ∧
    (∀ r aA bA, connect a b = (.ok r, aA, bA) →
      aA.joints.map (fun j => (j.rotation, j.is_male))
          = a.joints.map (fun j => (j.rotation, j.is_male)) ∧
      bA.joints.map (fun j => (j.rotation, j.is_male))
          = b.joints.map (fun j => (j.rotation, j.is_male)) ∧
      aA.children = a.children ∧ bA.children = b.children ∧
      ((a.joints.length = 1 ∧ aA = a ∧
          ∃ d, bA = Part.mk (b.joints.map (fun j => j.translate d)) b.children) ∨
        (a.joints.length ≠ 1 ∧ bA = b ∧
          ∃ d, aA = Part.mk (a.joints.map (fun j => j.translate d)) a.children))) := by
  constructor
  · intro e aA bA h
    exact connect_error a b e aA bA h
  · intro r aA bA h
    rcases connect_ok a b r aA bA h with ⟨h1, hcc⟩ | ⟨h1, h2, hcc⟩
    · obtain ⟨j2, hj2, hrot, haA, hbA, hr⟩ := _connect_ok a b r aA bA hcc
      subst haA
      refine ⟨rfl, ?_, rfl, ?_, Or.inl ⟨h1, rfl, ⟨_, hbA⟩⟩⟩
      · rw [hbA]
        simp [Function.comp]
      · rw [hbA]
        simp
    · obtain ⟨j2, hj2, hrot, hbA, haA, hr⟩ := _connect_ok b a r bA aA hcc
      subst hbA
      refine ⟨?_, rfl, ?_, rfl, Or.inr ⟨h1, rfl, ⟨_, haA⟩⟩⟩
      · rw [haA]
        simp [Function.comp]
      · rw [haA]
        simp

theorem claim_C1_witness :
    (EndPoint (0, 0, 0) 0 true = EndPoint (0, 0, 0) 0 true ∧
      EndPoint (1, 0, 0) 0 true = EndPoint (1, 0, 0) 0 true) :=
  (claim_C1_mutation_profile (EndPoint (0, 0, 0) 0 true)
    (EndPoint (1, 0, 0) 0 true)).1 .ambiguousConnection
    (EndPoint (0, 0, 0) 0 true) (EndPoint (1, 0, 0) 0 true) rfl

end Plarail

namespace Plarail

/-- C7: `Joint` construction normalizes any integer orientation modulo 8,
so the stored orientation is in `[0, 8)`; translation keeps orientation;
the part constructors produce only joints with orientation in `[0, 8)`;
and `connect` and `SelectedJoint` preserve the property over every joint
reachable in the component trees they return. -/
theorem claim_C7_orientation_invariant :
    (∀ (position : Vec3) (rotation : ℤ) (is_male : Bool),
      (Joint.make position rotation is_male).rotation < 8) ∧
    (∀ (j : Joint) (d : Vec3), (j.translate d).rotation = j.rotation) ∧
    RotWF Straight ∧
    (∀ (position : Vec3) (rotation : ℤ) (is_male : Bool),
      RotWF (EndPoint position rotation is_male)) ∧
    (∀ a b : Part, RotWF a → RotWF b →
      RotWF (connect a b).2.1 ∧ RotWF (connect a b).2.2 ∧
        ∀ r, (connect a b).1 = .ok r → RotWF r) ∧
    (∀ (p : Part) (i : ℤ) (r : Part),
      SelectedJoint p i = .ok r → RotWF p → RotWF r) :=
  ⟨Joint.make_rotation_lt, Joint.translate_rotation, RotWF_Straight,
    RotWF_EndPoint, RotWF_connect, RotWF_SelectedJoint⟩

theorem claim_C7_witness :
    (Joint.make (0, 0, 0) (-3) true).rotation < 8 ∧
      RotWF (connect (EndPoint (10, 0, 0) 0 true) Straight).2.2 :=
  ⟨claim_C7_orientation_invariant.1 (0, 0, 0) (-3) true,
    (claim_C7_orientation_invariant.2.2.2.2.1 (EndPoint (10, 0, 0) 0 true) Straight
      (RotWF_EndPoint (10, 0, 0) 0 true) RotWF_Straight).2.1⟩

/-- C8: `connect (EndPoint (10,0,0) 0 male) Straight` succeeds and the
resulting part exposes exactly one joint: position `(11,0,0)`,
orientation 0, gender male. -/
theorem claim_C8_end_to_end :
    ((connect (EndPoint (10, 0, 0) 0 true) Straight).1.toOption.map Part.joints)
      = some [⟨(11, 0, 0), 0, true⟩] := by
  simp [connect, _connect, candidates, Straight, EndPoint, Joint.make, Joint.translate,
    Except.toOption, Prod.ext_iff, List.findIdx_cons, List.eraseIdx_cons_zero,
    List.eraseIdx_cons_succ]
  norm_num

/-- C9: `SelectedJoint p i` fails with `InvalidJointIndex` for every
natural index `i ≥ p.joints.length`; for `i < p.joints.length` it succeeds,
exposing exactly the joint at index `i` and recording `p` as its sole
child. -/
theorem claim_C9_selector (p : Part) (i : ℕ) :
    (p.joints.length ≤ i → SelectedJoint p (i : ℤ) = .error .invalidJointIndex) ∧
    (∀ h : i < p.joints.length,
      SelectedJoint p (i : ℤ) = .ok (.mk [p.joints.get ⟨i, h⟩] [p])) := by
  constructor
  · intro hle
    have hnone : pyGet p.joints (i : ℤ) = none := by
      unfold pyGet
      rw [if_pos (by positivity)]
      simp only [Int.toNat_natCast]
      exact List.get?_eq_none.mpr hle
    simp [SelectedJoint, hnone]
  · intro hlt
    have hsome : pyGet p.joints (i : ℤ) = some (p.joints.get ⟨i, hlt⟩) := by
      unfold pyGet
      rw [if_pos (by positivity)]
      simp only [Int.toNat_natCast]
      exact List.get?_eq_get hlt
    simp [SelectedJoint, hsome]

theorem claim_C9_witness :
    SelectedJoint Straight ((2 : ℕ) : ℤ) = .error .invalidJointIndex ∧
      SelectedJoint Straight ((0 : ℕ) : ℤ)
        = .ok (.mk [Straight.joints.get ⟨0, by decide⟩] [Straight]) :=
  ⟨(claim_C9_selector Straight 2).1 (by decide),
    (claim_C9_selector Straight 0).2 (by decide)⟩

/-- C10 (implicit): for every part with `n` exposed joints and every
negative integer index `i` with `-n ≤ i < 0`, `SelectedJoint` construction
does not fail: it succeeds and selects the joint at position `n + i`,
counting from the end, exactly as Python list indexing does. -/
theorem claim_C10_negative_index (p : Part) (i : ℤ)
    (h1 : -(p.joints.length : ℤ) ≤ i) (h2 : i < 0) :
    ∃ j, p.joints.get? ((p.joints.length : ℤ) + i).toNat = some j ∧
      SelectedJoint p i = .ok (.mk [j] [p]) := by
  have hlt : ((p.joints.length : ℤ) + i).toNat < p.joints.length := by omega
  refine ⟨p.joints.get ⟨_, hlt⟩, List.get?_eq_get hlt, ?_⟩
  have hsome : pyGet p.joints i = some (p.joints.get ⟨_, hlt⟩) := by
    unfold pyGet
    rw [if_neg (by omega), if_pos (by omega)]
    exact List.get?_eq_get hlt
  simp [SelectedJoint, hsome]

theorem claim_C10_witness :
    SelectedJoint Straight (-1) = .ok (.mk [Joint.make (1, 0, 0) 0 true] [Straight]) := by
  obtain ⟨j, hj, hs⟩ := claim_C10_negative_index Straight (-1) (by decide) (by decide)
  have hval : j = Joint.make (1, 0, 0) 0 true := by
    have h2 : Straight.joints.get? ((Straight.joints.length : ℤ) + (-1)).toNat
        = some (Joint.make (1, 0, 0) 0 true) := rfl
    rw [hj] at h2
    exact Option.some.inj h2
  rw [hval] at hs
  exact hs

end Plarail
